import Mathlib

/-!
# Verification of the minimalist-todo store

Shallow embedding of the todo store (`src/hooks/useTodos.ts`), the derived
sorting logic (`src/components/TodoList.tsx`), the create-form boundary
(`src/components/AddTodoForm.tsx`) and the `Todo` record type
(`src/types/todo.ts`), together with proofs of the specified properties.

Modelling conventions:
* ISO-8601 date strings (`createdAt`, `dueDate`) are represented by the
  millisecond instants they denote (`Nat`), since the code only ever compares
  them through `new Date(s).getTime()`; `toISOString` is injective and
  order-preserving on instants, so nothing is lost.
* `Date.now()` and `crypto.randomUUID()` are passed in as explicit parameters
  (`now : Nat`, `freshId : String`).
* JavaScript `Array.prototype.sort` is guaranteed stable (ES2019) and, for a
  consistent comparator, a stable sort has a unique result; we therefore model
  it by `List.insertionSort` over the relation `comparator a b ≤ 0`, which is
  stable and sorts ascending by the comparator.
* `localStorage` is a single slot under one fixed key; JSON serialization is
  modelled at the level of JSON values (field-name/value pairs), the part of
  `JSON.stringify` / `JSON.parse` that the round-trip property is about.
-/

namespace MinimalistTodo

/-- `type Priority = 'low' | 'medium' | 'high'` (src/types/todo.ts). -/
inductive Priority where
  | low
  | medium
  | high
deriving DecidableEq, Repr

/-- `type Category = 'personal' | 'work' | 'shopping' | 'health' | 'other'`
(src/types/todo.ts). -/
inductive Category where
  | personal
  | work
  | shopping
  | health
  | other
deriving DecidableEq, Repr

/-- The `Todo` interface (src/types/todo.ts).  `dueDate : string | null` and
`createdAt : string` are ISO date strings in the source, modelled by their
millisecond instants; `order : number` holds either `Date.now()` timestamps or
reassigned 0-based indices, both naturals. -/
structure Todo where
  id : String
  title : String
  completed : Bool
  dueDate : Option Nat
  category : Option Category
  priority : Priority
  createdAt : Nat
  order : Nat
deriving DecidableEq, Repr

/-! ## Sorting (src/components/TodoList.tsx) -/

/-- `type SortOption = 'order' | 'dueDate' | 'priority' | 'createdAt'`. -/
inductive SortOption where
  | order
  | dueDate
  | priority
  | createdAt
deriving DecidableEq, Repr

/-- `PRIORITY_ORDER: Record<Priority, number> = { high: 0, medium: 1, low: 2 }`. -/
def priorityOrder : Priority → Nat
  | .high => 0
  | .medium => 1
  | .low => 2

/-- The comparator passed to `Array.prototype.sort` inside `sortTodos`
(TodoList.tsx lines 38–54), returning a signed number. -/
def sortCmp (sortBy : SortOption) (a b : Todo) : Int :=
  match sortBy with
  | .dueDate =>
    match a.dueDate, b.dueDate with
    | none, none => 0
    | none, some _ => 1
    | some _, none => -1
    | some ta, some tb => (ta : Int) - (tb : Int)
  | .priority => (priorityOrder a.priority : Int) - (priorityOrder b.priority : Int)
  | .createdAt => (b.createdAt : Int) - (a.createdAt : Int)
  | .order => (a.order : Int) - (b.order : Int)

/-- The relation "a sorts no later than b" induced by the comparator. -/
def sortLe (sortBy : SortOption) (a b : Todo) : Prop :=
  sortCmp sortBy a b ≤ 0

instance (sortBy : SortOption) : DecidableRel (sortLe sortBy) :=
  fun a b => inferInstanceAs (Decidable (sortCmp sortBy a b ≤ 0))

/-- `sortTodos(todos, sortBy)` (TodoList.tsx): a stable sort of a copy of the
input by the comparator `sortCmp`, modelled by insertion sort (see the file
header for why this is the faithful model of `Array.prototype.sort`). -/
def sortTodos (todos : List Todo) (sortBy : SortOption) : List Todo :=
  List.insertionSort (sortLe sortBy) todos

/-! ## Store operations (src/hooks/useTodos.ts) -/

/-- `CreateTodoInput` (useTodos.ts lines 11–16).  A TS optional field that may
also be `null` (`dueDate?: string | null`) is `Option (Option _)`: the outer
layer is `undefined` (field absent), the inner one `null`. -/
structure CreateTodoInput where
  title : String
  dueDate : Option (Option Nat) := none
  category : Option (Option Category) := none
  priority : Option Priority := none
deriving DecidableEq, Repr

/-- `UpdateTodoInput` (useTodos.ts lines 21–28). -/
structure UpdateTodoInput where
  id : String
  title : Option String := none
  dueDate : Option (Option Nat) := none
  category : Option (Option Category) := none
  priority : Option Priority := none
  completed : Option Bool := none
deriving DecidableEq, Repr

/-- `addTodo` (useTodos.ts lines 98–112), as a pure function of the current
cache.  `freshId` stands for `crypto.randomUUID()` and `now` for the current
instant (`new Date().toISOString()` alias `createdAt`, and `Date.now()` alias
`order`).  `input.dueDate ?? null` collapses `undefined` and `null` to `null`,
which is `Option.join`.  Returns the created todo and the new cache
(`[...todosCache, newTodo]`). -/
def addTodo (freshId : String) (now : Nat) (input : CreateTodoInput)
    (todosCache : List Todo) : Todo × List Todo :=
  let newTodo : Todo :=
    { id := freshId
      title := input.title
      completed := false
      dueDate := input.dueDate.join
      category := input.category.join
      priority := input.priority.getD .medium
      createdAt := now
      order := now }
  (newTodo, todosCache ++ [newTodo])

/-- The per-element body of `updateTodo`'s `map` (useTodos.ts lines 118–129):
on an id match, each field spread `...(input.f !== undefined && { f: input.f })`
overwrites the field exactly when it was supplied. -/
def applyUpdate (input : UpdateTodoInput) (todo : Todo) : Todo :=
  if todo.id = input.id then
    { todo with
      title := input.title.getD todo.title
      dueDate := input.dueDate.getD todo.dueDate
      category := input.category.getD todo.category
      priority := input.priority.getD todo.priority
      completed := input.completed.getD todo.completed }
  else todo

/-- `updateTodo` (useTodos.ts lines 117–131), on the cache. -/
def updateTodo (input : UpdateTodoInput) (todosCache : List Todo) : List Todo :=
  todosCache.map (applyUpdate input)

/-- `deleteTodo` (useTodos.ts lines 136–138), on the cache:
`todosCache.filter((todo) => todo.id !== id)`. -/
def deleteTodo (id : String) (todosCache : List Todo) : List Todo :=
  todosCache.filter (fun todo => todo.id != id)

/-- `toggleTodo` (useTodos.ts lines 143–148), on the cache. -/
def toggleTodo (id : String) (todosCache : List Todo) : List Todo :=
  todosCache.map (fun todo =>
    if todo.id = id then { todo with completed := !todo.completed } else todo)

/-- `result.map((todo, index) => ({ ...todo, order: index }))`
(useTodos.ts lines 166–169). -/
def reindex (todos : List Todo) : List Todo :=
  todos.mapIdx (fun i todo => { todo with order := i })

/-- `reorderTodos` (useTodos.ts lines 155–171), on the cache.  `findIndex`
returning `-1` is `findIdx? = none`; the double `splice` is erase at
`oldIndex` then insert at `newIndex` (both indices computed on the original
array), followed by reassigning every `order` to the new position. -/
def reorderTodos (activeId overId : String) (todosCache : List Todo) : List Todo :=
  match todosCache.findIdx? (fun t => t.id == activeId),
        todosCache.findIdx? (fun t => t.id == overId) with
  | some oldIndex, some newIndex =>
    match todosCache[oldIndex]? with
    | some removed => reindex ((todosCache.eraseIdx oldIndex).insertIdx newIndex removed)
    | none => todosCache
  | _, _ => todosCache

/-! ## The create-form boundary (src/components/AddTodoForm.tsx) -/

/-- `String.prototype.trim`: strip leading and trailing whitespace.  Modelled
on the character list so that it computes by structural recursion; JS
falsiness of the trimmed string (`!title.trim()`) is emptiness. -/
def jsTrim (s : String) : String :=
  String.mk (((s.data.dropWhile Char.isWhitespace).reverse.dropWhile
    Char.isWhitespace).reverse)

/-- `handleSubmit` (AddTodoForm.tsx lines 230–247), restricted to its effect on
the todo collection: `if (!title.trim()) return;` and otherwise
`addTodo({ title: title.trim(), dueDate: dueDate ? iso : null, category:
category || null, priority })`.  `dueDate` is the form's date state (`none`
when unset) and `category` the select state (`none` models `''`). -/
def handleSubmit (freshId : String) (now : Nat) (title : String)
    (dueDate : Option Nat) (category : Option Category) (priority : Priority)
    (todosCache : List Todo) : List Todo :=
  if jsTrim title = "" then todosCache
  else (addTodo freshId now
    { title := jsTrim title
      dueDate := some dueDate
      category := some category
      priority := some priority } todosCache).2

/-! ## Operation traces (for the id-uniqueness invariant) -/

/-- One store mutation, with the environment inputs of `create` (the fresh id
and the current instant) made explicit. -/
inductive StoreOp where
  | create (freshId : String) (now : Nat) (input : CreateTodoInput)
  | update (input : UpdateTodoInput)
  | delete (id : String)
  | toggle (id : String)
deriving DecidableEq, Repr

/-- Apply one mutation to the cache. -/
def applyOp (todosCache : List Todo) : StoreOp → List Todo
  | .create freshId now input => (addTodo freshId now input todosCache).2
  | .update input => updateTodo input todosCache
  | .delete id => deleteTodo id todosCache
  | .toggle id => toggleTodo id todosCache

/-- Apply a sequence of mutations, left to right. -/
def applyOps (todosCache : List Todo) : List StoreOp → List Todo
  | [] => todosCache
  | op :: rest => applyOps (applyOp todosCache op) rest

/-- The id a `create` draws is fresh for the given collection
(`crypto.randomUUID()` never collides with a present id); trivially true for
the other operations. -/
def createFresh (todosCache : List Todo) : StoreOp → Bool
  | .create freshId _ _ => !(todosCache.map Todo.id).contains freshId
  | _ => true

/-- Each `create` in the trace draws an id that is fresh for the collection at
the moment it runs. -/
def freshOk (todosCache : List Todo) : List StoreOp → Bool
  | [] => true
  | op :: rest => createFresh todosCache op && freshOk (applyOp todosCache op) rest

/-! ## Serialization (the Persistent Store Backend contract) -/

/-- A JSON value, restricted to the shapes a serialized `Todo` field takes. -/
inductive JVal where
  | jnull
  | jbool (b : Bool)
  | jnum (n : Nat)
  | jstr (s : String)
deriving DecidableEq, Repr

/-- The string a `Priority` serializes to. -/
def priorityToJson : Priority → JVal
  | .low => .jstr "low"
  | .medium => .jstr "medium"
  | .high => .jstr "high"

/-- The string a `Category` serializes to. -/
def categoryToJson : Category → JVal
  | .personal => .jstr "personal"
  | .work => .jstr "work"
  | .shopping => .jstr "shopping"
  | .health => .jstr "health"
  | .other => .jstr "other"

/-- `JSON.stringify` of one todo: the object's field-name/value pairs, nulls
explicit for absent optional fields (useTodos.ts line 76, spec section 6). -/
def encodeTodo (t : Todo) : List (String × JVal) :=
  [ ("id", .jstr t.id)
  , ("title", .jstr t.title)
  , ("completed", .jbool t.completed)
  , ("dueDate", match t.dueDate with | none => .jnull | some d => .jnum d)
  , ("category", match t.category with | none => .jnull | some c => categoryToJson c)
  , ("priority", priorityToJson t.priority)
  , ("createdAt", .jnum t.createdAt)
  , ("order", .jnum t.order) ]

/-- `JSON.stringify(todos)`: the serialized array. -/
def encodeTodos (todos : List Todo) : List (List (String × JVal)) :=
  todos.map encodeTodo

/-- Read a JSON value as a string. -/
def asStr : JVal → Option String
  | .jstr s => some s
  | _ => none

/-- Read a JSON value as a boolean. -/
def asBool : JVal → Option Bool
  | .jbool b => some b
  | _ => none

/-- Read a JSON value as a number. -/
def asNum : JVal → Option Nat
  | .jnum n => some n
  | _ => none

/-- Read a JSON value as a nullable number. -/
def asNullableNum : JVal → Option (Option Nat)
  | .jnull => some none
  | .jnum n => some (some n)
  | _ => none

/-- Parse a priority string. -/
def priorityOfJson : JVal → Option Priority
  | .jstr "low" => some .low
  | .jstr "medium" => some .medium
  | .jstr "high" => some .high
  | _ => none

/-- Parse a nullable category string. -/
def categoryOfJson : JVal → Option (Option Category)
  | .jnull => some none
  | .jstr "personal" => some (some .personal)
  | .jstr "work" => some (some .work)
  | .jstr "shopping" => some (some .shopping)
  | .jstr "health" => some (some .health)
  | .jstr "other" => some (some .other)
  | _ => none

/-- `JSON.parse` of one serialized todo object, read back at the shape the
`Todo` interface declares (the source casts the parsed value with
`as Todo[]`; on data the store itself wrote, the fields always have these
shapes). -/
def decodeTodo (fields : List (String × JVal)) : Option Todo := do
  let id ← (fields.lookup "id").bind asStr
  let title ← (fields.lookup "title").bind asStr
  let completed ← (fields.lookup "completed").bind asBool
  let dueDate ← (fields.lookup "dueDate").bind asNullableNum
  let category ← (fields.lookup "category").bind categoryOfJson
  let priority ← (fields.lookup "priority").bind priorityOfJson
  let createdAt ← (fields.lookup "createdAt").bind asNum
  let order ← (fields.lookup "order").bind asNum
  pure { id, title, completed, dueDate, category, priority, createdAt, order }

/-- `JSON.parse` of the serialized array (failure of any element models a
corrupt payload, which the load path catches). -/
def decodeTodos (stored : List (List (String × JVal))) : Option (List Todo) :=
  stored.mapM decodeTodo

/-! ## The stateful store (cache, storage slot, subscribers) -/

/-- The module-level state of `useTodos.ts`: the in-memory cache (line 31),
the `localStorage` slot under the fixed key (`none` = key absent), the set of
registered listeners (line 32, modelled as a duplicate-free list of listener
ids), and the log of notification rounds: each `emitChange` appends the list
of listeners it invoked, in iteration order. -/
structure StoreState where
  todosCache : List Todo
  storage : Option (List (List (String × JVal)))
  listeners : List Nat
  notifiedRuns : List (List Nat)
deriving DecidableEq, Repr

/-- `emitChange` (useTodos.ts lines 34–38): synchronously invoke every
registered listener once, in iteration order. -/
def emitChange (s : StoreState) : StoreState :=
  { s with notifiedRuns := s.notifiedRuns ++ [s.listeners] }

/-- `persistToStorage` (useTodos.ts lines 73–81): set the cache first, then
try to write the serialized list to storage — a failing write (`saveFails`,
e.g. quota exceeded) is caught and logged, leaving the slot unchanged — and
finally `emitChange`.  Total: it never rethrows. -/
def persistToStorage (saveFails : Bool) (todos : List Todo) (s : StoreState) :
    StoreState :=
  let s1 := { s with todosCache := todos }
  let s2 := if saveFails then s1 else { s1 with storage := some (encodeTodos todos) }
  emitChange s2

/-- A mutation as the hook runs it: compute the new collection from the cache
and hand it to `persistToStorage`. -/
def applyOpS (saveFails : Bool) (op : StoreOp) (s : StoreState) : StoreState :=
  persistToStorage saveFails (applyOp s.todosCache op) s

/-- `reorderTodos` as the hook runs it (useTodos.ts lines 155–171): the early
`return` on a missing id happens before `persistToStorage` is reached, so in
that case there is no write and no notification; otherwise the spliced,
reindexed collection is handed to `persistToStorage`. -/
def reorderTodosS (saveFails : Bool) (activeId overId : String)
    (s : StoreState) : StoreState :=
  match s.todosCache.findIdx? (fun t => t.id == activeId),
        s.todosCache.findIdx? (fun t => t.id == overId) with
  | some oldIndex, some newIndex =>
    match s.todosCache[oldIndex]? with
    | some removed =>
      persistToStorage saveFails
        (reindex ((s.todosCache.eraseIdx oldIndex).insertIdx newIndex removed)) s
    | none => s
  | _, _ => s

/-- `initializeFromStorage` (useTodos.ts lines 56–68): a no-op when the cache
is already populated; otherwise read the slot and parse it, a parse failure
being caught (cache left as is).  The `typeof window` guard is the server
side, outside this model. -/
def initFromStorage (s : StoreState) : StoreState :=
  if s.todosCache.length > 0 then s
  else
    match s.storage with
    | none => s
    | some stored =>
      match decodeTodos stored with
      | some todos => { s with todosCache := todos }
      | none => s

/-! ## Sample data for concrete witnesses -/

/-- A concrete todo used to instantiate universally quantified theorems. -/
def sampleA : Todo :=
  { id := "a", title := "alpha", completed := false, dueDate := none,
    category := none, priority := .medium, createdAt := 10, order := 100 }

/-- A second concrete todo with a distinct id. -/
def sampleB : Todo :=
  { id := "b", title := "beta", completed := true, dueDate := some 50,
    category := some .work, priority := .high, createdAt := 20, order := 200 }

/-! ## Helper lemmas -/

/-- `applyUpdate` never changes the id. -/
theorem applyUpdate_id (input : UpdateTodoInput) (t : Todo) :
    (applyUpdate input t).id = t.id := by
  rw [applyUpdate]
  split <;> rfl

/-- On an element whose id differs, `applyUpdate` is the identity. -/
theorem applyUpdate_of_ne (input : UpdateTodoInput) (t : Todo)
    (h : t.id ≠ input.id) : applyUpdate input t = t := by
  simp [applyUpdate, h]

/-- `updateTodo` with an id absent from the collection changes nothing. -/
theorem updateTodo_not_mem (input : UpdateTodoInput) (cache : List Todo)
    (h : input.id ∉ cache.map Todo.id) : updateTodo input cache = cache := by
  have hall : ∀ t ∈ cache, applyUpdate input t = t := by
    intro t ht
    exact applyUpdate_of_ne input t fun he => h (he ▸ List.mem_map_of_mem Todo.id ht)
  calc cache.map (applyUpdate input) = cache.map id := List.map_congr_left hall
    _ = cache := List.map_id cache

/-- `deleteTodo` with an id absent from the collection changes nothing. -/
theorem deleteTodo_not_mem (i : String) (cache : List Todo)
    (h : i ∉ cache.map Todo.id) : deleteTodo i cache = cache := by
  rw [deleteTodo, List.filter_eq_self]
  intro t ht
  have : t.id ≠ i := fun he => h (he ▸ List.mem_map_of_mem Todo.id ht)
  simpa using this

/-- `toggleTodo` with an id absent from the collection changes nothing. -/
theorem toggleTodo_not_mem (i : String) (cache : List Todo)
    (h : i ∉ cache.map Todo.id) : toggleTodo i cache = cache := by
  have hall : ∀ t ∈ cache,
      (if t.id = i then { t with completed := !t.completed } else t) = t := by
    intro t ht
    have : t.id ≠ i := fun he => h (he ▸ List.mem_map_of_mem Todo.id ht)
    simp [this]
  calc cache.map _ = cache.map id := List.map_congr_left hall
    _ = cache := List.map_id cache

/-- `updateTodo` preserves the id sequence. -/
theorem map_id_updateTodo (input : UpdateTodoInput) (cache : List Todo) :
    (updateTodo input cache).map Todo.id = cache.map Todo.id := by
  rw [updateTodo, List.map_map]
  exact List.map_congr_left fun t _ => applyUpdate_id input t

/-- `toggleTodo` preserves the id sequence. -/
theorem map_id_toggleTodo (i : String) (cache : List Todo) :
    (toggleTodo i cache).map Todo.id = cache.map Todo.id := by
  rw [toggleTodo, List.map_map]
  refine List.map_congr_left fun t _ => ?_
  by_cases h : t.id = i <;> simp [h]

/-! ## C1: empty-title create -/

/-- Claim C1 as stated is false: the store-level `addTodo` admits a
whitespace-empty title and changes the collection — here `addTodo` with title
`""` on the empty collection appends an item (whose trimmed title is empty). -/
theorem c1_counterexample :
    jsTrim "" = "" ∧
      (addTodo "t1" 0 { title := "" } []).2 ≠ [] ∧
      jsTrim (addTodo "t1" 0 { title := "" } []).1.title = "" := by
  refine ⟨rfl, ?_, rfl⟩
  decide

/-- C1 (amended): the empty-trimmed-title guard lives at the form boundary,
not in the store: `AddTodoForm.handleSubmit` returns without calling `addTodo`
whenever the title trims to empty, leaving the collection unchanged
(`addTodo` itself appends an item for any title, as the counterexample shows). -/
theorem c1_empty_title_form_guard (freshId : String) (now : Nat) (title : String)
    (dueDate : Option Nat) (category : Option Category) (priority : Priority)
    (todosCache : List Todo) (h : jsTrim title = "") :
    handleSubmit freshId now title dueDate category priority todosCache = todosCache := by
  simp [handleSubmit, h]

/-- Witness for C1 (amended) at a whitespace-only title. -/
theorem c1_empty_title_form_guard_witness :
    handleSubmit "t1" 5 "   " none none .medium [sampleA] = [sampleA] :=
  c1_empty_title_form_guard "t1" 5 "   " none none .medium [sampleA] (by decide)

/-! ## C3: fields of a created todo -/

/-- Claim C3 as stated is false on the strict-monotonicity part: `order` is
`Date.now()`, so a creation in the same millisecond as an existing item's
order produces an equal, not strictly greater, order.  Concretely, two
`addTodo` calls at instant 5 give both items order 5. -/
theorem c3_counterexample :
    jsTrim "y" ≠ "" ∧
      ((addTodo "t2" 5 { title := "y" } (addTodo "t1" 5 { title := "x" } []).2).1.order =
        ((addTodo "t1" 5 { title := "x" } []).1.order)) ∧
      ¬ ((addTodo "t2" 5 { title := "y" } (addTodo "t1" 5 { title := "x" } []).2).1.order >
          (addTodo "t1" 5 { title := "x" } []).1.order) := by
  refine ⟨by decide, rfl, by decide⟩

/-- C3 (amended): the created todo has `completed = false`, priority the
supplied one or medium, `createdAt` and `order` both the creation instant, and
is appended as the last element; its order exceeds every existing order
exactly when the creation instant does (true when the clock has advanced past
all prior creations, but not unconditionally — see the counterexample). -/
theorem c3_addTodo_fields (freshId : String) (now : Nat) (input : CreateTodoInput)
    (cache : List Todo) (h : jsTrim input.title ≠ "") :
    (addTodo freshId now input cache).1.completed = false ∧
      (addTodo freshId now input cache).1.priority = input.priority.getD .medium ∧
      (addTodo freshId now input cache).1.createdAt = now ∧
      (addTodo freshId now input cache).1.order = now ∧
      (addTodo freshId now input cache).2 = cache ++ [(addTodo freshId now input cache).1] ∧
      ((∀ t ∈ cache, t.order < now) →
        ∀ t ∈ cache, t.order < (addTodo freshId now input cache).1.order) := by
  refine ⟨rfl, rfl, rfl, rfl, rfl, ?_⟩
  intro hlt t ht
  exact hlt t ht

/-- Witness for C3 (amended): a creation at instant 1000 over `[sampleA]`
(order 100) appends last with a strictly larger order. -/
theorem c3_addTodo_fields_witness :
    (addTodo "t9" 1000 { title := "gamma", priority := some .high } [sampleA]).1.completed
        = false ∧
      (addTodo "t9" 1000 { title := "gamma", priority := some .high } [sampleA]).1.priority
        = (some Priority.high).getD .medium ∧
      (addTodo "t9" 1000 { title := "gamma", priority := some .high } [sampleA]).1.createdAt
        = 1000 ∧
      (addTodo "t9" 1000 { title := "gamma", priority := some .high } [sampleA]).1.order
        = 1000 ∧
      (addTodo "t9" 1000 { title := "gamma", priority := some .high } [sampleA]).2
        = [sampleA] ++ [(addTodo "t9" 1000 { title := "gamma", priority := some .high } [sampleA]).1] ∧
      ((∀ t ∈ [sampleA], t.order < 1000) →
        ∀ t ∈ [sampleA],
          t.order < (addTodo "t9" 1000 { title := "gamma", priority := some .high } [sampleA]).1.order) :=
  c3_addTodo_fields "t9" 1000 { title := "gamma", priority := some .high } [sampleA]
    (by decide)

/-! ## C4: unknown ids are silent no-ops -/

/-- C4: with an id absent from the collection, `update`, `delete` and
`toggleComplete` each leave the collection element-wise unchanged (all three
are total functions, so no error can be raised). -/
theorem c4_unknown_id_noop (i : String) (cache : List Todo)
    (h : i ∉ cache.map Todo.id) :
    (∀ input : UpdateTodoInput, input.id = i → updateTodo input cache = cache) ∧
      deleteTodo i cache = cache ∧ toggleTodo i cache = cache := by
  refine ⟨fun input hid => updateTodo_not_mem input cache (hid ▸ h), ?_, ?_⟩
  · exact deleteTodo_not_mem i cache h
  · exact toggleTodo_not_mem i cache h

/-- Witness for C4 at the concrete collection `[sampleA, sampleB]` and the
absent id `"zzz"`. -/
theorem c4_unknown_id_noop_witness :
    (∀ input : UpdateTodoInput, input.id = "zzz" →
        updateTodo input [sampleA, sampleB] = [sampleA, sampleB]) ∧
      deleteTodo "zzz" [sampleA, sampleB] = [sampleA, sampleB] ∧
      toggleTodo "zzz" [sampleA, sampleB] = [sampleA, sampleB] :=
  c4_unknown_id_noop "zzz" [sampleA, sampleB] (by decide)

/-! ## C5: id uniqueness along every operation trace -/

/-- One mutation keeps the id sequence duplicate-free, provided a `create`
draws an id that is fresh for the current collection. -/
theorem nodup_ids_applyOp (op : StoreOp) (cache : List Todo)
    (h : (cache.map Todo.id).Nodup) (hf : createFresh cache op = true) :
    ((applyOp cache op).map Todo.id).Nodup := by
  cases op with
  | create freshId now input =>
    have hfid : freshId ∉ cache.map Todo.id := by simpa [createFresh] using hf
    have heq : (applyOp cache (.create freshId now input)).map Todo.id =
        cache.map Todo.id ++ [freshId] := by
      simp [applyOp, addTodo]
    rw [heq]
    simp [List.nodup_append, h, hfid]
  | update input => rw [applyOp, map_id_updateTodo]; exact h
  | delete i =>
    exact ((List.filter_sublist cache).map Todo.id).nodup h
  | toggle i => rw [applyOp, map_id_toggleTodo]; exact h

/-- A trace of mutations with fresh creation ids keeps the id sequence
duplicate-free. -/
theorem nodup_ids_applyOps (ops : List StoreOp) :
    ∀ cache : List Todo, (cache.map Todo.id).Nodup → freshOk cache ops = true →
      ((applyOps cache ops).map Todo.id).Nodup := by
  induction ops with
  | nil => intro cache h _; exact h
  | cons op rest ih =>
    intro cache h hf
    rw [freshOk, Bool.and_eq_true] at hf
    exact ih (applyOp cache op) (nodup_ids_applyOp op cache h hf.1) hf.2

/-- C5: starting from the empty collection, every finite sequence of
create/update/delete/toggle operations whose creations draw fresh ids leaves
every id in the snapshot occurring exactly once. -/
theorem c5_id_uniqueness (ops : List StoreOp) (h : freshOk [] ops = true) :
    ((applyOps [] ops).map Todo.id).Nodup :=
  nodup_ids_applyOps ops [] (by simp) h

/-- Witness for C5 on a concrete four-operation trace. -/
theorem c5_id_uniqueness_witness :
    ((applyOps []
      [ StoreOp.create "a" 1 { title := "x" }
      , StoreOp.create "b" 2 { title := "y" }
      , StoreOp.delete "a"
      , StoreOp.toggle "b" ]).map Todo.id).Nodup :=
  c5_id_uniqueness
    [ StoreOp.create "a" 1 { title := "x" }
    , StoreOp.create "b" 2 { title := "y" }
    , StoreOp.delete "a"
    , StoreOp.toggle "b" ] (by decide)

/-! ## C8: a failing persistence write does not roll back -/

/-- C8: for every mutation — create/update/delete/toggle (`applyOpS`) and
reorder (`reorderTodosS`) alike — when the storage write fails the in-memory
cache still holds the post-mutation collection (no rollback, the slot alone is
left stale), and the operation completes normally: whenever the mutation
reaches the persistence step (always for the four `StoreOp`s; for reorder,
whenever both ids are found, since a missing id returns before persisting),
every subscriber is notified in one round exactly as on the success path. -/
theorem c8_save_failure_no_rollback (op : StoreOp) (a b : String)
    (s : StoreState) :
    ((applyOpS true op s).todosCache = applyOp s.todosCache op ∧
      (applyOpS true op s).storage = s.storage ∧
      (applyOpS true op s).notifiedRuns = s.notifiedRuns ++ [s.listeners]) ∧
    ((reorderTodosS true a b s).todosCache = reorderTodos a b s.todosCache ∧
      (reorderTodosS true a b s).storage = s.storage ∧
      ∀ i j, s.todosCache.findIdx? (fun t => t.id == a) = some i →
        s.todosCache.findIdx? (fun t => t.id == b) = some j →
        (reorderTodosS true a b s).notifiedRuns = s.notifiedRuns ++ [s.listeners]) := by
  refine ⟨⟨rfl, rfl, rfl⟩, ?_⟩
  rcases h1 : s.todosCache.findIdx? (fun t => t.id == a) with _ | i
  · refine ⟨?_, ?_, ?_⟩
    · simp only [reorderTodosS, reorderTodos, h1]
    · simp only [reorderTodosS, h1]
    · intro i j hi hj
      rw [h1] at hi
      cases hi
  · rcases h2 : s.todosCache.findIdx? (fun t => t.id == b) with _ | j
    · refine ⟨?_, ?_, ?_⟩
      · simp only [reorderTodosS, reorderTodos, h1, h2]
      · simp only [reorderTodosS, h1, h2]
      · intro i' j' hi hj
        rw [h2] at hj
        cases hj
    · rcases h3 : s.todosCache[i]? with _ | removed
      · have hilt : i < s.todosCache.length :=
          (List.findIdx?_eq_some_iff_findIdx_eq.mp h1).1
        rw [List.getElem?_eq_getElem hilt] at h3
        cases h3
      · refine ⟨?_, ?_, ?_⟩
        · simp [reorderTodosS, reorderTodos, h1, h2, h3, persistToStorage,
            emitChange]
        · simp [reorderTodosS, h1, h2, h3, persistToStorage, emitChange]
        · intro i' j' hi hj
          simp [reorderTodosS, h1, h2, h3, persistToStorage, emitChange]

/-- Witness for C8 at a concrete store: a failing-save reorder with both ids
present still runs its one notification round. -/
theorem c8_save_failure_no_rollback_witness :
    (reorderTodosS true "a" "b"
      { todosCache := [sampleA, sampleB], storage := none, listeners := [7],
        notifiedRuns := [] }).notifiedRuns = [] ++ [[7]] :=
  ((c8_save_failure_no_rollback (StoreOp.delete "a") "a" "b"
      { todosCache := [sampleA, sampleB], storage := none, listeners := [7],
        notifiedRuns := [] }).2.2.2) 0 1 (by decide) (by decide)

/-! ## C10: no-op mutations still persist and notify -/

/-- C10: with an id absent from the collection, each of `update`, `delete` and
`toggleComplete` leaves the cache element-wise unchanged yet still performs a
persistence write of the (unchanged) collection and runs exactly one
notification round in which every registered subscriber — `listeners` models
the `Set`, hence duplicate-free — is invoked exactly once. -/
theorem c10_noop_still_persists_and_notifies (i : String)
    (input : UpdateTodoInput) (s : StoreState) (hi : input.id = i)
    (h : i ∉ s.todosCache.map Todo.id) (hn : s.listeners.Nodup) :
    ∀ op ∈ [StoreOp.update input, StoreOp.delete i, StoreOp.toggle i],
      (applyOpS false op s).todosCache = s.todosCache ∧
        (applyOpS false op s).storage = some (encodeTodos s.todosCache) ∧
        (applyOpS false op s).notifiedRuns = s.notifiedRuns ++ [s.listeners] ∧
        ∀ l ∈ s.listeners, s.listeners.count l = 1 := by
  have hcount : ∀ l ∈ s.listeners, s.listeners.count l = 1 :=
    fun l hl => List.count_eq_one_of_mem hn hl
  intro op hop
  have hcache : applyOp s.todosCache op = s.todosCache := by
    simp only [List.mem_cons, List.not_mem_nil, or_false] at hop
    rcases hop with rfl | rfl | rfl
    · exact updateTodo_not_mem input s.todosCache (hi ▸ h)
    · exact deleteTodo_not_mem i s.todosCache h
    · exact toggleTodo_not_mem i s.todosCache h
  refine ⟨?_, ?_, rfl, hcount⟩
  · simpa [applyOpS, persistToStorage, emitChange] using hcache
  · simp [applyOpS, persistToStorage, emitChange, hcache]

/-- Witness for C10: deleting the absent id `"zzz"` from a store holding
`[sampleA]` with one registered listener. -/
theorem c10_noop_witness :
    (applyOpS false (StoreOp.delete "zzz")
        { todosCache := [sampleA], storage := none, listeners := [7],
          notifiedRuns := [] }).todosCache = [sampleA] ∧
      (applyOpS false (StoreOp.delete "zzz")
        { todosCache := [sampleA], storage := none, listeners := [7],
          notifiedRuns := [] }).storage = some (encodeTodos [sampleA]) ∧
      (applyOpS false (StoreOp.delete "zzz")
        { todosCache := [sampleA], storage := none, listeners := [7],
          notifiedRuns := [] }).notifiedRuns = [] ++ [[7]] ∧
      ∀ l ∈ [7], List.count l [7] = 1 :=
  c10_noop_still_persists_and_notifies "zzz" { id := "zzz" }
    { todosCache := [sampleA], storage := none, listeners := [7], notifiedRuns := [] }
    rfl (by decide) (by decide) (StoreOp.delete "zzz") (by simp)

/-! ## C9: serialization round trip -/

/-- Decoding inverts encoding for a single todo. -/
theorem decodeTodo_encodeTodo (t : Todo) : decodeTodo (encodeTodo t) = some t := by
  rcases t with ⟨id, title, completed, dueDate, category, priority, createdAt, order⟩
  rcases dueDate with _ | d <;>
    rcases category with _ | (_ | _ | _ | _ | _) <;>
      rcases priority with _ | _ | _ <;> rfl

/-- Decoding inverts encoding for the whole collection. -/
theorem decodeTodos_encodeTodos (l : List Todo) :
    decodeTodos (encodeTodos l) = some l := by
  induction l with
  | nil => rfl
  | cons t ts ih =>
    simp only [encodeTodos, List.map_cons, decodeTodos, List.mapM_cons,
      decodeTodo_encodeTodo, Option.bind_eq_bind, Option.some_bind]
    simp only [encodeTodos, decodeTodos] at ih
    rw [ih]
    rfl

/-- C9: the collection serialized on the save path (`persistToStorage` with a
succeeding write) and loaded into a fresh store (empty cache) yields an
element-wise equal snapshot. -/
theorem c9_roundtrip (todos : List Todo) (s : StoreState) :
    (initFromStorage
      { todosCache := [], storage := (persistToStorage false todos s).storage,
        listeners := [], notifiedRuns := [] }).todosCache = todos := by
  have hst : (persistToStorage false todos s).storage = some (encodeTodos todos) := rfl
  rw [hst]
  simp [initFromStorage, decodeTodos_encodeTodos]

/-! ## C6 and C7: derived sorting views -/

instance : IsTrans Todo (sortLe SortOption.dueDate) where
  trans a b c hab hbc := by
    rcases ha : a.dueDate with _ | ta <;> rcases hb : b.dueDate with _ | tb <;>
      rcases hc : c.dueDate with _ | tc <;>
        simp only [sortLe, sortCmp, ha, hb, hc] at hab hbc ⊢ <;> omega

instance : IsTotal Todo (sortLe SortOption.dueDate) where
  total a b := by
    rcases ha : a.dueDate with _ | ta <;> rcases hb : b.dueDate with _ | tb <;>
      simp only [sortLe, sortCmp, ha, hb] <;> omega

instance : IsTrans Todo (sortLe SortOption.priority) where
  trans a b c hab hbc := by
    simp only [sortLe, sortCmp] at hab hbc ⊢
    omega

instance : IsTotal Todo (sortLe SortOption.priority) where
  total a b := by
    simp only [sortLe, sortCmp]
    omega

/-- Inserting an element satisfying `p` into a list, under a relation that
holds between any two `p`-elements, prepends it to the `p`-sublist: the
`orderedInsert` walk can pass only non-`p` elements before placing it. -/
theorem filter_orderedInsert_pos {α : Type _} (p : α → Bool) (r : α → α → Prop)
    [DecidableRel r] (hmono : ∀ x y, p x = true → p y = true → r x y)
    (a : α) (ha : p a = true) :
    ∀ l : List α, (l.orderedInsert r a).filter p = a :: l.filter p := by
  intro l
  induction l with
  | nil => simp [List.orderedInsert, ha]
  | cons b bs ih =>
    rw [List.orderedInsert]
    by_cases hr : r a b
    · rw [if_pos hr]
      simp [List.filter_cons, ha]
    · have hpb : p b = false := by
        cases hpb : p b
        · rfl
        · exact absurd (hmono a b ha hpb) hr
      rw [if_neg hr]
      simp [List.filter_cons, hpb, ih]

/-- Inserting an element not satisfying `p` leaves the `p`-sublist unchanged. -/
theorem filter_orderedInsert_neg {α : Type _} (p : α → Bool) (r : α → α → Prop)
    [DecidableRel r] (a : α) (ha : p a = false) :
    ∀ l : List α, (l.orderedInsert r a).filter p = l.filter p := by
  intro l
  induction l with
  | nil => simp [List.orderedInsert, ha]
  | cons b bs ih =>
    rw [List.orderedInsert]
    by_cases hr : r a b
    · rw [if_pos hr]
      simp [List.filter_cons, ha]
    · rw [if_neg hr]
      simp [List.filter_cons, ih]

/-- Stability of insertion sort on the `p`-sublist, when the sort relation
holds between any two `p`-elements (they are tied, so a stable sort keeps
their input order). -/
theorem filter_insertionSort {α : Type _} (p : α → Bool) (r : α → α → Prop)
    [DecidableRel r] (hmono : ∀ x y, p x = true → p y = true → r x y)
    (l : List α) : (l.insertionSort r).filter p = l.filter p := by
  induction l with
  | nil => rfl
  | cons a l ih =>
    rw [List.insertionSort]
    cases hpa : p a
    · rw [filter_orderedInsert_neg p r a hpa, ih]
      simp [List.filter_cons, hpa]
    · rw [filter_orderedInsert_pos p r hmono a hpa, ih]
      simp [List.filter_cons, hpa]

/-- C6: sorting by due date yields a permutation of the input in which any two
items with due dates appear in ascending chronological order, every dated
item precedes every undated one (once an undated item appears, all later ones
are undated), undated items keep their relative input order, and two undated
items compare equal under the comparator. -/
theorem c6_sort_dueDate (l : List Todo) :
    (sortTodos l .dueDate).Perm l ∧
      (sortTodos l .dueDate).Pairwise (fun a b =>
        ∀ ta tb, a.dueDate = some ta → b.dueDate = some tb → ta ≤ tb) ∧
      (sortTodos l .dueDate).Pairwise (fun a b =>
        a.dueDate = none → b.dueDate = none) ∧
      (sortTodos l .dueDate).filter (fun t => t.dueDate.isNone) =
        l.filter (fun t => t.dueDate.isNone) ∧
      ∀ a b : Todo, a.dueDate = none → b.dueDate = none →
        sortCmp .dueDate a b = 0 := by
  have hs : (sortTodos l .dueDate).Pairwise (sortLe .dueDate) :=
    List.sorted_insertionSort (sortLe .dueDate) l
  refine ⟨List.perm_insertionSort _ l, ?_, ?_, ?_, ?_⟩
  · refine hs.imp fun hab => ?_
    intro ta tb ha hb
    simp only [sortLe, sortCmp, ha, hb] at hab
    omega
  · refine hs.imp fun hab => ?_
    intro ha
    rename_i a b
    rcases hb : b.dueDate with _ | tb
    · rfl
    · simp only [sortLe, sortCmp, ha, hb] at hab
      omega
  · have hmono : ∀ x y : Todo, (fun t : Todo => t.dueDate.isNone) x = true →
        (fun t : Todo => t.dueDate.isNone) y = true → sortLe .dueDate x y := by
      intro x y hx hy
      simp only [Option.isNone_iff_eq_none] at hx hy
      simp [sortLe, sortCmp, hx, hy]
    exact filter_insertionSort (fun t => t.dueDate.isNone) (sortLe .dueDate) hmono l
  · intro a b ha hb
    simp [sortCmp, ha, hb]

/-- C7: sorting by priority yields a permutation of the input in which every
high item precedes every medium item and every medium item precedes every low
item (the fixed ranks are non-decreasing along the output), and items of
equal priority keep their relative input order. -/
theorem c7_sort_priority (l : List Todo) :
    (sortTodos l .priority).Perm l ∧
      (sortTodos l .priority).Pairwise (fun a b =>
        priorityOrder a.priority ≤ priorityOrder b.priority) ∧
      ∀ q : Priority, (sortTodos l .priority).filter (fun t => t.priority == q) =
        l.filter (fun t => t.priority == q) := by
  have hs : (sortTodos l .priority).Pairwise (sortLe .priority) :=
    List.sorted_insertionSort (sortLe .priority) l
  refine ⟨List.perm_insertionSort _ l, ?_, ?_⟩
  · refine hs.imp fun hab => ?_
    simp only [sortLe, sortCmp] at hab
    omega
  · intro q
    have hmono : ∀ x y : Todo, (fun t : Todo => t.priority == q) x = true →
        (fun t : Todo => t.priority == q) y = true → sortLe .priority x y := by
      intro x y hx hy
      simp only [beq_iff_eq] at hx hy
      simp [sortLe, sortCmp, hx, hy]
    exact filter_insertionSort (fun t => t.priority == q) (sortLe .priority) hmono l

/-! ## C2: reorder has list-splice semantics and reindexes orders -/

/-- A `reindex` element at position `k` is the input element at `k` with its
order set to `k`. -/
theorem reindex_getElem? (l : List Todo) (k : Nat) :
    (reindex l)[k]? = l[k]?.map (fun t => { t with order := k }) := by
  simp [reindex]

/-- C2: when both ids are present (found at indices `i` and `j` of the
original sequence), `reorder` produces exactly the sequence obtained by
removing the moved item and inserting it at the index the target occupied in
the original sequence, with every item's `order` field reassigned to its
0-based position; when either id is absent the collection is unchanged. -/
theorem c2_reorder_splice (a b : String) (l : List Todo) :
    (∀ i j, l.findIdx? (fun t => t.id == a) = some i →
        l.findIdx? (fun t => t.id == b) = some j →
        ∃ moved, l[i]? = some moved ∧
          reorderTodos a b l = reindex ((l.eraseIdx i).insertIdx j moved) ∧
          (reorderTodos a b l)[j]? = some { moved with order := j } ∧
          ∀ (k : Nat) (t : Todo), (reorderTodos a b l)[k]? = some t → t.order = k) ∧
      ((l.findIdx? (fun t => t.id == a) = none ∨
          l.findIdx? (fun t => t.id == b) = none) →
        reorderTodos a b l = l) := by
  constructor
  · intro i j hi hj
    have hilt : i < l.length := (List.findIdx?_eq_some_iff_findIdx_eq.mp hi).1
    have hjlt : j < l.length := (List.findIdx?_eq_some_iff_findIdx_eq.mp hj).1
    obtain ⟨moved, hmoved⟩ : ∃ moved, l[i]? = some moved := by
      rw [List.getElem?_eq_getElem hilt]
      exact ⟨_, rfl⟩
    have hre : reorderTodos a b l = reindex ((l.eraseIdx i).insertIdx j moved) := by
      simp only [reorderTodos, hi, hj, hmoved]
    have hj2 : j ≤ (l.eraseIdx i).length := by
      rw [List.length_eraseIdx_of_lt hilt]
      omega
    have hmv : ((l.eraseIdx i).insertIdx j moved)[j]? = some moved := by
      have hlen : j < ((l.eraseIdx i).insertIdx j moved).length := by
        rw [List.length_insertIdx _ _ hj2]
        omega
      rw [List.getElem?_eq_getElem hlen]
      exact congrArg some (List.getElem_insertIdx_self _ _ _ hj2)
    refine ⟨moved, hmoved, hre, ?_, ?_⟩
    · rw [hre, reindex_getElem?, hmv]
      rfl
    intro k t ht
    rw [hre, reindex_getElem?] at ht
    rcases hu : ((l.eraseIdx i).insertIdx j moved)[k]? with _ | u
    · rw [hu] at ht
      cases ht
    · rw [hu] at ht
      simp only [Option.map_some', Option.some.injEq] at ht
      rw [← ht]
  · intro h
    rcases h1 : l.findIdx? (fun t => t.id == a) with _ | i
    · simp only [reorderTodos, h1]
    · rcases h2 : l.findIdx? (fun t => t.id == b) with _ | j
      · simp only [reorderTodos, h1, h2]
      · rcases h with h | h
        · rw [h1] at h; cases h
        · rw [h2] at h; cases h

/-- Witness for C2 on the two-element collection `[sampleA, sampleB]`
(ids `"a"`, `"b"`, found at indices 0 and 1). -/
theorem c2_reorder_splice_witness :
    ∃ moved, ([sampleA, sampleB] : List Todo)[0]? = some moved ∧
      reorderTodos "a" "b" [sampleA, sampleB] =
        reindex ((([sampleA, sampleB] : List Todo).eraseIdx 0).insertIdx 1 moved) ∧
      (reorderTodos "a" "b" [sampleA, sampleB])[1]? = some { moved with order := 1 } ∧
      ∀ (k : Nat) (t : Todo), (reorderTodos "a" "b" [sampleA, sampleB])[k]? = some t → t.order = k :=
  (c2_reorder_splice "a" "b" [sampleA, sampleB]).1 0 1 (by decide) (by decide)

end MinimalistTodo
